import Mathlib

/-!
Verification of the parallel PC-algorithm skeleton engine (`src/skeleton.cpp`)
against its natural-language specification.

The engine (class `PCAlgorithm`) is embedded shallowly: its state-mutating
methods become state-passing functions, the worker pool of a level becomes an
abstract function parameter on the working graph (the `Worker` class is not
part of the analysed source), and stdout output is tracked as a list of output
events.  Doubles are modelled as rationals; the external GSL Pearson routine
and the Fisher-z test (`IndepTestGauss`) are abstract function parameters,
since the engine only threads their return values through comparisons.
-/

namespace LockFreePC

/-- Modelled from the spec: the `Graph` class is not under `src/` (only its
callers are).  Per spec §3, a graph over `{0..p-1}` stores, for each vertex
`v`, a sequence of neighbour indices; `getNeighbours`, `getNeighbourCount`
and `deleteEdge` are the operations `skeleton.cpp` invokes on it. -/
structure Graph where
  nrVars : Nat
  adj : Nat → List Nat

/-- `Graph::getNeighbours(v)` — the neighbour sequence of `v`. -/
def Graph.getNeighbours (g : Graph) (v : Nat) : List Nat := g.adj v

/-- `Graph::getNeighbourCount(v)` — the size of the neighbour sequence. -/
def Graph.getNeighbourCount (g : Graph) (v : Nat) : Nat :=
  (g.getNeighbours v).length

/-- Modelled from the spec: `Graph::deleteEdge(i,j)` removes `j` from
`adj(i)` and `i` from `adj(j)` (spec §3/§4.1). -/
def Graph.deleteEdge (g : Graph) (i j : Nat) : Graph :=
  { g with adj := fun v =>
      if v = i then (g.adj v).erase j
      else if v = j then (g.adj v).erase i
      else g.adj v }

/-- Edge membership: `j` occurs in the adjacency of `i`. -/
def Graph.hasEdge (g : Graph) (i j : Nat) : Prop := j ∈ g.adj i

/-- Modelled from the spec: `Graph(vars)`, the constructor used at
`skeleton.cpp:4`, yields the complete graph on `vars` vertices (spec §2:
"Engine initializes complete graph minus edges rejected at ℓ=0"). -/
def completeGraph (p : Nat) : Graph :=
  { nrVars := p
    adj := fun v =>
      if v < p then (List.range p).filter (fun u => decide (u ≠ v)) else [] }

/-- Structural sanity of a graph on `p` vertices: duplicate-free neighbour
lists over `{0..p-1}` without self-loops (spec §3 invariants). -/
def Wellformed (g : Graph) (p : Nat) : Prop :=
  ∀ v, (g.adj v).Nodup ∧ (∀ u ∈ g.adj v, u < p) ∧ v ∉ g.adj v

/-- `TestInstruction{x, y}` — a candidate edge posted on the work queue,
`x` being the node whose adjacency iteration enqueued it. -/
structure TestInstruction where
  x : Nat
  y : Nat
deriving DecidableEq

/-- The guard of `skeleton.cpp:30`/`:33`: `getNeighbourCount(v) - 1 >= level`
evaluated in integer arithmetic. -/
def qualB (g : Graph) (level : Nat) (v : Nat) : Bool :=
  decide ((g.getNeighbourCount v : Int) - 1 ≥ (level : Int))

/-- The queue-filling phase of one level (`skeleton.cpp:29-43`): every node
`x` of `nodes_to_be_tested` that passes the degree guard enumerates its
neighbours `y` and enqueues `TestInstruction{x, y}` whenever
`y < x || getNeighbourCount(y) - 1 < level`. -/
def fillQueue (g : Graph) (level : Nat) (nodes : List Nat) : List TestInstruction :=
  nodes.flatMap (fun x =>
    if qualB g level x then
      ((g.getNeighbours x).filter
          (fun y => decide (y < x ∨ qualB g level y = false))).map
        (fun y => TestInstruction.mk x y)
    else [])

/-- How often the unordered edge `{a,b}` occurs in a queue. -/
def edgeCount (q : List TestInstruction) (a b : Nat) : Nat :=
  q.countP (fun t => decide ((t.x = a ∧ t.y = b) ∨ (t.x = b ∧ t.y = a)))

/-- The nested iteration `rep(i, vars) rep(j, i)` of
`skeleton.cpp:117-118`/`:132-133`: all pairs `(i, j)` with `j < i < vars`,
in program order. -/
def pairsLT (vars : Nat) : List (Nat × Nat) :=
  (List.range vars).flatMap (fun i => (List.range i).map (fun j => (i, j)))

/-- Position `(a,b)` of a matrix is written by the update for pair `p`
(which writes both `(p.1,p.2)` and `(p.2,p.1)`). -/
def touches (p : Nat × Nat) (a b : Nat) : Prop :=
  (a = p.1 ∧ b = p.2) ∨ (a = p.2 ∧ b = p.1)

instance (p : Nat × Nat) (a b : Nat) : Decidable (touches p a b) :=
  inferInstanceAs (Decidable ((a = p.1 ∧ b = p.2) ∨ (a = p.2 ∧ b = p.1)))

/-- `_correlation(i,j) = _correlation(j,i) = pearson` (`skeleton.cpp:126`). -/
def corrUpdate (c : Nat → Nat → ℚ) (p : Nat × Nat) (v : ℚ) : Nat → Nat → ℚ :=
  fun i j => if touches p i j then v else c i j

/-- The value `gsl_stats_correlation(&data[i][0], &data[j][0], n)` reads: the
abstract Pearson routine applied to the first `n` entries of rows `p.1` and
`p.2`. -/
def pearsonAt (pearson : List ℚ → List ℚ → ℚ) (data : List (List ℚ))
    (n : Nat) (p : Nat × Nat) : ℚ :=
  pearson ((data.getD p.1 []).take n) ((data.getD p.2 []).take n)

/-- The correlation-filling loop of `skeleton.cpp:117-128`. -/
def corrFold (pearson : List ℚ → List ℚ → ℚ) (data : List (List ℚ))
    (n vars : Nat) (c0 : Nat → Nat → ℚ) : Nat → Nat → ℚ :=
  (pairsLT vars).foldl
    (fun c p => corrUpdate c p (pearsonAt pearson data n p)) c0

/-- The level-0 deletion loop of `skeleton.cpp:132-140`: iterate the pairs,
deleting edge `(p.1, p.2)` whenever the test condition fires. -/
def deleteFold (cond : Nat × Nat → Bool) (ps : List (Nat × Nat)) (g : Graph) :
    Graph :=
  ps.foldl (fun h p => if cond p then h.deleteEdge p.1 p.2 else h) g

/-- The stdout lines the engine prints, as abstract events. -/
inductive OutEvent where
  | startFill : OutEvent
  | deletedEdges : Nat → OutEvent
  | queuedPairs : Nat → OutEvent
  | testsDone : Nat → OutEvent
  | noTestsLeft : Nat → OutEvent
  | totalTests : OutEvent
deriving DecidableEq

/-- The member state of a `PCAlgorithm` object, plus the stdout transcript. -/
structure AlgState where
  graph : Graph
  workingGraph : Option Graph
  correlation : Nat → Nat → ℚ
  alpha : ℚ
  nrVariables : Nat
  nrSamples : Nat
  nrThreads : Nat
  output : List OutEvent

/-- The constructor `PCAlgorithm::PCAlgorithm` (`skeleton.cpp:4-9`): stores
the parameters, allocates the (complete) graph, an identity correlation
matrix (`arma::fill::eye`) and leaves `_working_graph` default-constructed
(null).  No input is validated. -/
def PCAlgorithm.init (vars : Nat) (alpha : ℚ) (samples threads : Nat) :
    AlgState :=
  { graph := completeGraph vars
    workingGraph := none
    correlation := fun i j => if i = j then 1 else 0
    alpha := alpha
    nrVariables := vars
    nrSamples := samples
    nrThreads := threads
    output := [] }

/-- `PCAlgorithm::build_correlation_matrix` (`skeleton.cpp:114-143`),
parametric in the external Pearson routine and the `IndepTestGauss::test`
function (a function of sample count, correlation matrix, the two variables
and the separation set).  `n` is `data[0].size()`; the level-0 screening
deletes `{i,j}` when the returned p-value is `>= _alpha`; finally
`_working_graph` is set to a clone of `_graph`. -/
def buildCorrelationMatrix (pearson : List ℚ → List ℚ → ℚ)
    (test : Nat → (Nat → Nat → ℚ) → Nat → Nat → List Nat → ℚ)
    (data : List (List ℚ)) (s : AlgState) : AlgState :=
  let n := (data.headD []).length
  let corr := corrFold pearson data n s.nrVariables s.correlation
  let cond : Nat × Nat → Bool :=
    fun p => decide (test s.nrSamples corr p.1 p.2 [] ≥ s.alpha)
  let g := deleteFold cond (pairsLT s.nrVariables) s.graph
  { s with
      correlation := corr
      graph := g
      workingGraph := some g
      output := s.output ++
        [OutEvent.deletedEdges (2 * (pairsLT s.nrVariables).countP cond)] }

/-- Failure modes of `build_graph`: dereferencing a null `_working_graph`,
or (model artefact) running out of loop fuel. -/
inductive RunError where
  | nullDeref : RunError
  | outOfFuel : RunError
deriving DecidableEq

/-- Result of the level loop: final `_graph`, final `_working_graph`,
stdout events of the loop body. -/
structure LoopResult where
  frozen : Graph
  working : Option Graph
  out : List OutEvent

/-- The level loop of `PCAlgorithm::build_graph` (`skeleton.cpp:25-101`).
The per-level worker pool (`skeleton.cpp:56-72`, class `Worker`, not under
`src/`) is abstracted as `worker level queue frozen working`, returning the
working graph after all workers joined.  Promotions
`_graph = make_shared<Graph>(*_working_graph)` (lines 91 and 99) dereference
`_working_graph` and fail when it is null.  `fuel` bounds the number of
completed iterations; the termination theorem shows `p - 1` always
suffices. -/
def buildGraphLoop (worker : Nat → List TestInstruction → Graph → Graph → Graph) :
    Nat → Nat → Graph → Option Graph → List Nat → List OutEvent →
    Except RunError LoopResult
  | fuel, level, frozen, working, nodes, out =>
    if nodes = [] then Except.ok ⟨frozen, working, out⟩
    else
      let queue := fillQueue frozen level nodes
      if queue = [] then
        match working with
        | none => Except.error RunError.nullDeref
        | some w =>
          Except.ok ⟨w, some w, out ++ [OutEvent.noTestsLeft level]⟩
      else
        match working with
        | none => Except.error RunError.nullDeref
        | some w =>
          match fuel with
          | 0 => Except.error RunError.outOfFuel
          | fuel' + 1 =>
            let w' := worker level queue frozen w
            buildGraphLoop worker fuel' (level + 1) w' (some w')
              (nodes.filter (fun v => qualB frozen level v))
              (out ++ [OutEvent.queuedPairs queue.length,
                       OutEvent.testsDone level])

/-- `PCAlgorithm::build_graph` (`skeleton.cpp:11-104`): announce the queue
filling, run the level loop starting at level 1 over all `p` nodes, print
the total-tests line. -/
def buildGraph (worker : Nat → List TestInstruction → Graph → Graph → Graph)
    (s : AlgState) : Except RunError AlgState :=
  match buildGraphLoop worker s.nrVariables 1 s.graph s.workingGraph
      (List.range s.nrVariables) [] with
  | Except.error e => Except.error e
  | Except.ok r =>
    Except.ok { s with
      graph := r.frozen
      workingGraph := r.working
      output := s.output ++ [OutEvent.startFill] ++ r.out ++
        [OutEvent.totalTests] }

/-- Observable actions of one level body, in program order: the enqueues of
the filling phase (`skeleton.cpp:29-43`), then — only when the queue is
non-empty — the worker-thread creations (`skeleton.cpp:56-68`). -/
inductive LevelEvent where
  | enqueue : TestInstruction → LevelEvent
  | spawnWorker : Nat → LevelEvent
deriving DecidableEq

/-- The event trace of one level body for thread count `nrThreads`. -/
def levelEvents (g : Graph) (level : Nat) (nodes : List Nat)
    (nrThreads : Nat) : List LevelEvent :=
  let q := fillQueue g level nodes
  q.map LevelEvent.enqueue ++
    (if q = [] then []
     else (List.range nrThreads).map LevelEvent.spawnWorker)

/-- The memory cells `(row, index)` read by `build_correlation_matrix`
through the GSL vector views (`skeleton.cpp:119-125`): for every pair
`(i, j)` with `j < i < vars`, the first `n` entries of rows `i` and `j`,
with `n = data[0].size()`. -/
def corrReads (data : List (List ℚ)) (vars : Nat) : List (Nat × Nat) :=
  let n := (data.headD []).length
  (pairsLT vars).flatMap (fun p =>
    ((List.range n).map (fun k => (p.1, k))) ++
      ((List.range n).map (fun k => (p.2, k))))

/-! ### Basic facts about the graph embedding -/

lemma mem_completeGraph_adj (p v u : Nat) :
    u ∈ (completeGraph p).adj v ↔ v < p ∧ u < p ∧ u ≠ v := by
  simp only [completeGraph]
  by_cases h : v < p
  · simp [h, List.mem_filter, List.mem_range, and_assoc]
  · simp [h]

lemma completeGraph_nodup (p : Nat) : ∀ v, ((completeGraph p).adj v).Nodup := by
  intro v
  simp only [completeGraph]
  by_cases h : v < p
  · simpa [h] using (List.nodup_range p).filter _
  · simp [h]

lemma completeGraph_wellformed (p : Nat) : Wellformed (completeGraph p) p := by
  intro v
  refine ⟨completeGraph_nodup p v, ?_, ?_⟩
  · intro u hu
    exact ((mem_completeGraph_adj p v u).mp hu).2.1
  · intro hv
    exact ((mem_completeGraph_adj p v v).mp hv).2.2 rfl

lemma completeGraph_symm (p : Nat) :
    ∀ x y, y ∈ (completeGraph p).adj x ↔ x ∈ (completeGraph p).adj y := by
  intro x y
  rw [mem_completeGraph_adj, mem_completeGraph_adj]
  constructor
  · rintro ⟨h1, h2, h3⟩; exact ⟨h2, h1, fun h => h3 h.symm⟩
  · rintro ⟨h1, h2, h3⟩; exact ⟨h2, h1, fun h => h3 h.symm⟩

lemma qualB_true_iff (g : Graph) (level v : Nat) :
    qualB g level v = true ↔ level + 1 ≤ g.getNeighbourCount v := by
  simp only [qualB, decide_eq_true_iff]
  omega

lemma count_le_of_wellformed (g : Graph) (p v : Nat)
    (hwf : Wellformed g p) (hv : v < p) : g.getNeighbourCount v ≤ p - 1 := by
  obtain ⟨hnd, hlt, hself⟩ := hwf v
  have hsub : (g.adj v).toFinset ⊆ (Finset.range p).erase v := by
    intro u hu
    rw [List.mem_toFinset] at hu
    rw [Finset.mem_erase, Finset.mem_range]
    exact ⟨fun h => hself (h ▸ hu), hlt u hu⟩
  have hcard := Finset.card_le_card hsub
  rw [List.toFinset_card_of_nodup hnd] at hcard
  rw [Finset.card_erase_of_mem (Finset.mem_range.mpr hv), Finset.card_range]
    at hcard
  exact hcard

lemma getD_mem (l : List (List ℚ)) (i : Nat) (h : i < l.length) :
    l.getD i [] ∈ l := by
  rw [List.getD_eq_getElem l [] h]
  exact List.getElem_mem h

/-! ### Counting enqueues of a fixed edge (claim C1) -/

/-- Summing a function over a duplicate-free list in which at most the two
points `a` and `b` contribute. -/
lemma sum_map_two (f : Nat → Nat) (l : List Nat) (a b : Nat) (hab : a ≠ b)
    (hnd : l.Nodup) (hz : ∀ x ∈ l, x ≠ a → x ≠ b → f x = 0) :
    (l.map f).sum = (if a ∈ l then f a else 0) + (if b ∈ l then f b else 0) := by
  induction l with
  | nil => simp
  | cons x l ih =>
    have hndl : l.Nodup := hnd.of_cons
    have hxl : x ∉ l := (List.nodup_cons.mp hnd).1
    have hzl : ∀ y ∈ l, y ≠ a → y ≠ b → f y = 0 :=
      fun y hy => hz y (List.mem_cons_of_mem x hy)
    rw [List.map_cons, List.sum_cons, ih hndl hzl]
    by_cases hxa : x = a
    · have hal : a ∉ l := by rw [← hxa]; exact hxl
      have hba : ¬ b = a := Ne.symm hab
      simp [hxa, hal, hba, List.mem_cons]
    · by_cases hxb : x = b
      · have hbl : b ∉ l := by rw [← hxb]; exact hxl
        have hax : ¬ a = b := hab
        simp only [hxb, List.mem_cons, hax, false_or, hbl, if_neg,
          if_false, or_false, if_true, if_pos, true_or, eq_self_iff_true]
        by_cases hal : a ∈ l <;> simp [hal] <;> omega
      · have hfx : f x = 0 := hz x (List.mem_cons_self x l) hxa hxb
        have hax : ¬ a = x := fun h => hxa h.symm
        have hbx : ¬ b = x := fun h => hxb h.symm
        simp [List.mem_cons, hfx, hax, hbx]

/-- The predicate counting occurrences of the unordered edge `{a,b}`. -/
def edgePred (a b : Nat) : TestInstruction → Bool :=
  fun t => decide ((t.x = a ∧ t.y = b) ∨ (t.x = b ∧ t.y = a))

lemma edgeCount_eq_countP (q : List TestInstruction) (a b : Nat) :
    edgeCount q a b = q.countP (edgePred a b) := rfl

/-- Contribution of the iteration of node `x` to the count of edge `{a,b}`,
when `x` is neither `a` nor `b`: zero. -/
lemma countP_block_other (g : Graph) (level : Nat) (a b x : Nat)
    (hxa : x ≠ a) (hxb : x ≠ b) :
    List.countP (edgePred a b)
      (if qualB g level x then
        ((g.getNeighbours x).filter
            (fun y => decide (y < x ∨ qualB g level y = false))).map
          (fun y => TestInstruction.mk x y)
      else []) = 0 := by
  by_cases hq : qualB g level x
  · rw [if_pos hq, List.countP_eq_zero]
    intro t ht
    rw [List.mem_map] at ht
    obtain ⟨y, _, rfl⟩ := ht
    simp [edgePred, hxa, hxb]
  · rw [if_neg hq]; rfl

/-- Contribution of the iteration of node `a` itself. -/
lemma countP_block_self (g : Graph) (level : Nat) (a b : Nat) (hab : a ≠ b)
    (hnd : (g.adj a).Nodup) :
    List.countP (edgePred a b)
      (if qualB g level a then
        ((g.getNeighbours a).filter
            (fun y => decide (y < a ∨ qualB g level y = false))).map
          (fun y => TestInstruction.mk a y)
      else []) =
    if qualB g level a = true ∧ (b < a ∨ qualB g level b = false) ∧ b ∈ g.adj a
    then 1 else 0 := by
  by_cases hq : qualB g level a
  · rw [if_pos hq, List.countP_map, List.countP_filter]
    have hpt : ∀ y,
        ((edgePred a b ∘ fun y => TestInstruction.mk a y) y &&
            decide (y < a ∨ qualB g level y = false)) = true ↔
        ((decide (y = b) &&
            decide (b < a ∨ qualB g level b = false)) = true) := by
      intro y
      by_cases hyb : y = b
      · simp [edgePred, Function.comp, hyb, hab]
      · simp [edgePred, Function.comp, hyb, hab,
          fun h : b = a => hab h.symm]
    rw [List.countP_congr (fun y _ => hpt y)]
    by_cases hcond : b < a ∨ qualB g level b = false
    · have heq : ∀ y, ((decide (y = b) &&
          decide (b < a ∨ qualB g level b = false)) = true) ↔
          ((y == b) = true) := by
        intro y; simp [hcond]
      rw [List.countP_congr (fun y _ => heq y)]
      by_cases hmem : b ∈ g.adj a
      · rw [if_pos ⟨hq, hcond, hmem⟩]
        have hcnt := List.count_eq_one_of_mem hnd hmem
        have hdef : List.countP (fun y => y == b) (g.adj a) =
            List.count b (g.adj a) := rfl
        rw [Graph.getNeighbours, hdef, hcnt]
      · rw [if_neg (by tauto)]
        rw [List.countP_eq_zero]
        intro y hy
        simp only [beq_iff_eq]
        intro h
        exact hmem (h ▸ hy)
    · rw [if_neg (by tauto), List.countP_eq_zero]
      intro y _
      simp [hcond]
  · rw [if_neg hq, if_neg (by tauto)]; rfl

lemma edgePred_comm (a b : Nat) : edgePred a b = edgePred b a :=
  funext fun t => decide_eq_decide.mpr (by tauto)

/-- A node passing the degree guard on the complete graph lies below `p`. -/
lemma qual_completeGraph_lt (p level v : Nat)
    (h : qualB (completeGraph p) level v = true) : v < p := by
  rw [qualB_true_iff] at h
  by_contra hv
  have : (completeGraph p).adj v = [] := by
    simp [completeGraph, hv]
  rw [Graph.getNeighbourCount, Graph.getNeighbours, this] at h
  simp at h

/-- Total count of edge `{a,b}` in the filled queue, split into the
contributions of the iterations of `a` and of `b`. -/
lemma edgeCount_fillQueue (g : Graph) (level : Nat) (nodes : List Nat)
    (a b : Nat) (hab : a ≠ b) (hnda : (g.adj a).Nodup)
    (hndb : (g.adj b).Nodup) (hnd : nodes.Nodup) :
    edgeCount (fillQueue g level nodes) a b =
      (if a ∈ nodes then
        (if qualB g level a = true ∧ (b < a ∨ qualB g level b = false) ∧
            b ∈ g.adj a then 1 else 0) else 0) +
      (if b ∈ nodes then
        (if qualB g level b = true ∧ (a < b ∨ qualB g level a = false) ∧
            a ∈ g.adj b then 1 else 0) else 0) := by
  rw [edgeCount_eq_countP, fillQueue, List.countP_flatMap]
  rw [sum_map_two _ nodes a b hab hnd]
  · congr 1
    · by_cases ha : a ∈ nodes
      · rw [if_pos ha, if_pos ha]
        exact countP_block_self g level a b hab hnda
      · rw [if_neg ha, if_neg ha]
    · by_cases hb : b ∈ nodes
      · rw [if_pos hb, if_pos hb]
        show List.countP (edgePred a b) _ = _
        rw [edgePred_comm]
        exact countP_block_self g level b a (Ne.symm hab) hndb
      · rw [if_neg hb, if_neg hb]
  · intro x _ hxa hxb
    exact countP_block_other g level a b x hxa hxb

/-- C1, amended: at any level `ℓ ≥ 1`, the queue-filling phase enqueues each
edge `{a,b}` of the frozen graph exactly once when at least one endpoint
passes the degree guard (and not at all otherwise); when both endpoints pass
it, the HIGHER-indexed endpoint performs the enqueue, and when exactly one
passes, that endpoint performs it.  (`nodes` is `nodes_to_be_tested`, which
contains every node passing the guard.) -/
theorem C1_enqueue_discipline (g : Graph) (p level : Nat) (nodes : List Nat)
    (a b : Nat)
    (hwf : Wellformed g p)
    (hsym : ∀ x y, y ∈ g.adj x ↔ x ∈ g.adj y)
    (hlevel : 1 ≤ level)
    (hedge : b ∈ g.adj a)
    (hnd : nodes.Nodup)
    (hcover : ∀ v, qualB g level v = true → v ∈ nodes) :
    (edgeCount (fillQueue g level nodes) a b =
      if qualB g level a = true ∨ qualB g level b = true then 1 else 0)
    ∧ (qualB g level a = true → qualB g level b = true →
        TestInstruction.mk (max a b) (min a b) ∈ fillQueue g level nodes)
    ∧ (qualB g level a = true → qualB g level b = false →
        TestInstruction.mk a b ∈ fillQueue g level nodes) := by
  have hab : a ≠ b := by
    intro h
    exact (hwf a).2.2 (h ▸ hedge)
  have hedge' : a ∈ g.adj b := (hsym a b).mp hedge
  refine ⟨?_, ?_, ?_⟩
  · rw [edgeCount_fillQueue g level nodes a b hab (hwf a).1 (hwf b).1 hnd]
    by_cases ha : qualB g level a = true
    · have hmema : a ∈ nodes := hcover a ha
      by_cases hb : qualB g level b = true
      · have hmemb : b ∈ nodes := hcover b hb
        rcases Nat.lt_or_ge a b with hlt | hge
        · have hba : ¬ b < a := by omega
          simp [hmema, hmemb, ha, hb, hedge, hedge', hlt, hba]
        · have hlt : b < a := by omega
          have hnlt : ¬ a < b := by omega
          simp [hmema, hmemb, ha, hb, hedge, hedge', hlt, hnlt]
      · have hb' : qualB g level b = false := by
          cases hq : qualB g level b
          · rfl
          · exact absurd hq hb
        simp [hmema, ha, hb', hedge]
    · have ha' : qualB g level a = false := by
        cases hq : qualB g level a
        · rfl
        · exact absurd hq ha
      by_cases hb : qualB g level b = true
      · have hmemb : b ∈ nodes := hcover b hb
        simp [hmemb, ha', hb, hedge']
      · have hb' : qualB g level b = false := by
          cases hq : qualB g level b
          · rfl
          · exact absurd hq hb
        simp [ha', hb']
  · intro ha hb
    rcases Nat.lt_or_ge a b with hlt | hge
    · have hmax : max a b = b := by omega
      have hmin : min a b = a := by omega
      rw [hmax, hmin, fillQueue, List.mem_flatMap]
      refine ⟨b, hcover b hb, ?_⟩
      rw [if_pos hb, List.mem_map]
      exact ⟨a, List.mem_filter.mpr ⟨hedge', by simp [hlt]⟩, rfl⟩
    · have hlt : b < a := by omega
      have hmax : max a b = a := by omega
      have hmin : min a b = b := by omega
      rw [hmax, hmin, fillQueue, List.mem_flatMap]
      refine ⟨a, hcover a ha, ?_⟩
      rw [if_pos ha, List.mem_map]
      exact ⟨b, List.mem_filter.mpr ⟨hedge, by simp [hlt]⟩, rfl⟩
  · intro ha hb
    rw [fillQueue, List.mem_flatMap]
    refine ⟨a, hcover a ha, ?_⟩
    rw [if_pos ha, List.mem_map]
    exact ⟨b, List.mem_filter.mpr ⟨hedge, by simp [hb]⟩, rfl⟩

/-- C1, counterexample to the claim as stated: on the complete graph over
three vertices at level 1, both endpoints of edge `{0,1}` pass the degree
guard, the edge is enqueued exactly once — but by endpoint 1 (the instruction
is `{x := 1, y := 0}`), not by the lower-indexed endpoint 0: instruction
`{x := 0, y := 1}` is never enqueued. -/
theorem C1_counterexample :
    qualB (completeGraph 3) 1 0 = true ∧ qualB (completeGraph 3) 1 1 = true ∧
    edgeCount (fillQueue (completeGraph 3) 1 (List.range 3)) 0 1 = 1 ∧
    TestInstruction.mk 1 0 ∈ fillQueue (completeGraph 3) 1 (List.range 3) ∧
    TestInstruction.mk 0 1 ∉ fillQueue (completeGraph 3) 1 (List.range 3) := by
  decide

/-- Witness for `C1_enqueue_discipline` at a concrete input. -/
theorem C1_enqueue_discipline_witness :
    edgeCount (fillQueue (completeGraph 3) 1 (List.range 3)) 0 1 =
      (if qualB (completeGraph 3) 1 0 = true ∨ qualB (completeGraph 3) 1 1 = true
       then 1 else 0) := by
  have h := C1_enqueue_discipline (completeGraph 3) 3 1 (List.range 3) 0 1
    (completeGraph_wellformed 3) (completeGraph_symm 3) (by decide)
    (by decide) (List.nodup_range 3)
    (fun v hv => List.mem_range.mpr (qual_completeGraph_lt 3 1 v hv))
  exact h.1

/-! ### Level-0 screening (claim C2) -/

lemma mem_pairsLT (vars : Nat) (p : Nat × Nat) :
    p ∈ pairsLT vars ↔ p.2 < p.1 ∧ p.1 < vars := by
  cases p with
  | mk i j =>
    simp only [pairsLT, List.mem_flatMap, List.mem_map, List.mem_range]
    constructor
    · rintro ⟨i', hi', j', hj', h⟩
      cases h
      exact ⟨hj', hi'⟩
    · rintro ⟨hj, hi⟩
      exact ⟨i, hi, j, hj, rfl⟩

lemma mem_deleteEdge_iff (g : Graph) (i j a b : Nat) (hij : i ≠ j)
    (hnd : (g.adj a).Nodup) :
    b ∈ (g.deleteEdge i j).adj a ↔
      b ∈ g.adj a ∧ ¬(a = i ∧ b = j) ∧ ¬(a = j ∧ b = i) := by
  simp only [Graph.deleteEdge]
  by_cases hai : a = i
  · rw [if_pos hai]
    rw [hnd.mem_erase_iff]
    have : ¬ a = j := fun h => hij (hai ▸ h ▸ rfl)
    constructor
    · rintro ⟨h1, h2⟩
      exact ⟨h2, fun hc => h1 hc.2, fun hc => this hc.1⟩
    · rintro ⟨h1, h2, _⟩
      exact ⟨fun hb => h2 ⟨hai, hb⟩, h1⟩
  · rw [if_neg hai]
    by_cases haj : a = j
    · rw [if_pos haj]
      rw [hnd.mem_erase_iff]
      constructor
      · rintro ⟨h1, h2⟩
        exact ⟨h2, fun hc => hai hc.1, fun hc => h1 hc.2⟩
      · rintro ⟨h1, _, h3⟩
        exact ⟨fun hb => h3 ⟨haj, hb⟩, h1⟩
    · rw [if_neg haj]
      constructor
      · intro h
        exact ⟨h, fun hc => hai hc.1, fun hc => haj hc.1⟩
      · exact fun h => h.1

lemma deleteEdge_nodup (g : Graph) (i j : Nat)
    (hnd : ∀ v, (g.adj v).Nodup) : ∀ v, ((g.deleteEdge i j).adj v).Nodup := by
  intro v
  simp only [Graph.deleteEdge]
  by_cases hvi : v = i
  · rw [if_pos hvi]; exact (hnd v).erase j
  · rw [if_neg hvi]
    by_cases hvj : v = j
    · rw [if_pos hvj]; exact (hnd v).erase i
    · rw [if_neg hvj]; exact hnd v

/-- Membership after the conditional-deletion fold: the edge survives iff it
was present and no processed pair that fires the condition names it. -/
lemma mem_deleteFold_iff (cond : Nat × Nat → Bool) (ps : List (Nat × Nat))
    (g : Graph) (a b : Nat) (hnd : ∀ v, (g.adj v).Nodup)
    (hps : ∀ p ∈ ps, p.2 < p.1) :
    b ∈ (deleteFold cond ps g).adj a ↔
      b ∈ g.adj a ∧
        ∀ p ∈ ps, cond p = true → ¬(a = p.1 ∧ b = p.2) ∧ ¬(a = p.2 ∧ b = p.1) := by
  induction ps generalizing g with
  | nil => simp [deleteFold]
  | cons q ps ih =>
    have hq : q.2 < q.1 := hps q (List.mem_cons_self q ps)
    have hps' : ∀ p ∈ ps, p.2 < p.1 :=
      fun p hp => hps p (List.mem_cons_of_mem q hp)
    have step : deleteFold cond (q :: ps) g =
        deleteFold cond ps (if cond q then g.deleteEdge q.1 q.2 else g) := by
      simp only [deleteFold, List.foldl_cons]
    rw [step]
    by_cases hc : cond q = true
    · rw [if_pos hc]
      rw [ih (g.deleteEdge q.1 q.2) (deleteEdge_nodup g q.1 q.2 hnd) hps']
      rw [mem_deleteEdge_iff g q.1 q.2 a b (by omega) (hnd a)]
      constructor
      · rintro ⟨⟨h1, h2, h3⟩, h4⟩
        refine ⟨h1, ?_⟩
        intro p hp hcp
        rcases List.mem_cons.mp hp with rfl | hp'
        · exact ⟨h2, h3⟩
        · exact h4 p hp' hcp
      · rintro ⟨h1, h4⟩
        have hq4 := h4 q (List.mem_cons_self q ps) hc
        exact ⟨⟨h1, hq4.1, hq4.2⟩, fun p hp => h4 p (List.mem_cons_of_mem q hp)⟩
    · rw [if_neg hc]
      rw [ih g hnd hps']
      constructor
      · rintro ⟨h1, h4⟩
        refine ⟨h1, ?_⟩
        intro p hp hcp
        rcases List.mem_cons.mp hp with rfl | hp'
        · exact absurd hcp hc
        · exact h4 p hp' hcp
      · rintro ⟨h1, h4⟩
        exact ⟨h1, fun p hp => h4 p (List.mem_cons_of_mem q hp)⟩

/-- C2: after `build_correlation_matrix`, for every pair `a < b < p` the
edge `{a,b}` of the initially complete graph survives iff the Gaussian test,
called with the empty conditioning set on that pair (as `test(b, a, {})`,
`b` being the outer loop index), returned a p-value strictly below `α`;
equivalently the edge is deleted iff the p-value is `≥ α`. -/
theorem C2_level0_screening (vars samples threads : Nat) (alpha : ℚ)
    (pearson : List ℚ → List ℚ → ℚ)
    (test : Nat → (Nat → Nat → ℚ) → Nat → Nat → List Nat → ℚ)
    (data : List (List ℚ)) (a b : Nat) (hab : a < b) (hb : b < vars) :
    ((b, a) ∈ pairsLT vars)
    ∧ ((buildCorrelationMatrix pearson test data
          (PCAlgorithm.init vars alpha samples threads)).graph.hasEdge a b
        ↔ test samples
            (buildCorrelationMatrix pearson test data
              (PCAlgorithm.init vars alpha samples threads)).correlation
            b a [] < alpha) := by
  constructor
  · exact (mem_pairsLT vars (b, a)).mpr ⟨hab, hb⟩
  · have hinit :
        (PCAlgorithm.init vars alpha samples threads).graph = completeGraph vars :=
      rfl
    simp only [buildCorrelationMatrix, Graph.hasEdge, PCAlgorithm.init]
    rw [mem_deleteFold_iff _ _ _ a b (completeGraph_nodup vars)
      (fun p hp => ((mem_pairsLT vars p).mp hp).1)]
    rw [mem_completeGraph_adj]
    constructor
    · rintro ⟨⟨_, _, _⟩, hall⟩
      have hba := hall (b, a) ((mem_pairsLT vars (b, a)).mpr ⟨hab, hb⟩)
      by_contra hge
      push_neg at hge
      exact (hba (decide_eq_true_iff.mpr hge)).2 ⟨rfl, rfl⟩
    · intro hlt
      refine ⟨⟨by omega, by omega, by omega⟩, ?_⟩
      intro p hp hcp
      have hplt := ((mem_pairsLT vars p).mp hp).1
      constructor
      · rintro ⟨h1, h2⟩
        omega
      · rintro ⟨h1, h2⟩
        rw [← h1, ← h2] at hcp
        exact absurd hlt (not_lt.mpr (decide_eq_true_iff.mp hcp))

/-- Witness for `C2_level0_screening` at a concrete input. -/
theorem C2_level0_screening_witness :
    ((1, 0) ∈ pairsLT 2)
    ∧ ((buildCorrelationMatrix (fun _ _ => 0) (fun _ _ _ _ _ => 0)
          [[1, 2], [3, 4]] (PCAlgorithm.init 2 1 10 1)).graph.hasEdge 0 1
        ↔ (fun (_ : Nat) (_ : Nat → Nat → ℚ) (_ _ : Nat) (_ : List Nat) =>
              (0 : ℚ)) 10
            (buildCorrelationMatrix (fun _ _ => 0) (fun _ _ _ _ _ => 0)
              [[1, 2], [3, 4]] (PCAlgorithm.init 2 1 10 1)).correlation
            1 0 [] < 1) :=
  C2_level0_screening 2 10 1 1 (fun _ _ => 0) (fun _ _ _ _ _ => 0)
    [[1, 2], [3, 4]] 0 1 (by decide) (by decide)

/-! ### The correlation matrix (claims C7 and C10) -/

lemma touches_comm (p : Nat × Nat) (a b : Nat) :
    touches p a b ↔ touches p b a := by
  unfold touches; tauto

lemma foldCorr_not (val : Nat × Nat → ℚ) (ps : List (Nat × Nat))
    (c : Nat → Nat → ℚ) (a b : Nat) (h : ∀ p ∈ ps, ¬ touches p a b) :
    (ps.foldl (fun c p => corrUpdate c p (val p)) c) a b = c a b := by
  induction ps generalizing c with
  | nil => rfl
  | cons q ps ih =>
    rw [List.foldl_cons]
    rw [ih _ (fun p hp => h p (List.mem_cons_of_mem q hp))]
    exact if_neg (h q (List.mem_cons_self q ps))

lemma foldCorr_preserve (val : Nat × Nat → ℚ) (ps : List (Nat × Nat))
    (c : Nat → Nat → ℚ) (a b : Nat) (v0 : ℚ)
    (h : ∀ p ∈ ps, touches p a b → val p = v0) (hc : c a b = v0) :
    (ps.foldl (fun c p => corrUpdate c p (val p)) c) a b = v0 := by
  induction ps generalizing c with
  | nil => exact hc
  | cons q ps ih =>
    rw [List.foldl_cons]
    refine ih _ (fun p hp => h p (List.mem_cons_of_mem q hp)) ?_
    by_cases ht : touches q a b
    · rw [corrUpdate, if_pos ht]
      exact h q (List.mem_cons_self q ps) ht
    · rw [corrUpdate, if_neg ht]
      exact hc

lemma foldCorr_mem (val : Nat × Nat → ℚ) (ps : List (Nat × Nat))
    (c : Nat → Nat → ℚ) (a b : Nat) (q : Nat × Nat) (hq : q ∈ ps)
    (ht : touches q a b) (h : ∀ p ∈ ps, touches p a b → val p = val q) :
    (ps.foldl (fun c p => corrUpdate c p (val p)) c) a b = val q := by
  induction ps generalizing c with
  | nil => exact absurd hq (List.not_mem_nil q)
  | cons q' ps ih =>
    rw [List.foldl_cons]
    by_cases ht' : touches q' a b
    · refine foldCorr_preserve val ps _ a b (val q)
        (fun p hp => h p (List.mem_cons_of_mem q' hp)) ?_
      rw [corrUpdate, if_pos ht']
      exact h q' (List.mem_cons_self q' ps) ht'
    · have hq' : q ∈ ps := by
        rcases List.mem_cons.mp hq with rfl | hmem
        · exact absurd ht ht'
        · exact hmem
      exact ih _ hq' (fun p hp => h p (List.mem_cons_of_mem q' hp))

lemma foldCorr_symm (val : Nat × Nat → ℚ) (ps : List (Nat × Nat))
    (c : Nat → Nat → ℚ) (hc : ∀ x y, c x y = c y x) :
    ∀ x y, (ps.foldl (fun c p => corrUpdate c p (val p)) c) x y =
      (ps.foldl (fun c p => corrUpdate c p (val p)) c) y x := by
  induction ps generalizing c with
  | nil => exact hc
  | cons q ps ih =>
    rw [List.foldl_cons]
    refine ih _ ?_
    intro x y
    rw [corrUpdate, corrUpdate]
    by_cases ht : touches q x y
    · rw [if_pos ht, if_pos ((touches_comm q x y).mp ht)]
    · rw [if_neg ht, if_neg (fun h => ht ((touches_comm q y x).mp h))]
      exact hc x y

/-- After a successful `build_graph`, the correlation member is untouched:
the loop only replaces `_graph` and `_working_graph` and appends output. -/
lemma buildGraph_correlation (worker : Nat → List TestInstruction → Graph → Graph → Graph)
    (s r : AlgState) (h : buildGraph worker s = Except.ok r) :
    r.correlation = s.correlation := by
  unfold buildGraph at h
  cases hloop : buildGraphLoop worker s.nrVariables 1 s.graph s.workingGraph
      (List.range s.nrVariables) [] with
  | error e =>
    rw [hloop] at h
    exact absurd h (by simp)
  | ok res =>
    rw [hloop] at h
    simp only [Except.ok.injEq] at h
    rw [← h]

/-- C7: after `build_correlation_matrix` on rectangular `p`-row data, the
correlation matrix has unit diagonal, is symmetric, its off-diagonal entries
are the Pearson correlation of the corresponding data rows, and a subsequent
`build_graph` leaves it unchanged. -/
theorem C7_correlation_immutable (vars samples threads : Nat) (alpha : ℚ)
    (pearson : List ℚ → List ℚ → ℚ)
    (test : Nat → (Nat → Nat → ℚ) → Nat → Nat → List Nat → ℚ)
    (data : List (List ℚ))
    (worker : Nat → List TestInstruction → Graph → Graph → Graph)
    (hrect : ∀ row ∈ data, row.length = (data.headD []).length)
    (hlen : data.length = vars)
    (hpsym : ∀ u v, pearson u v = pearson v u) :
    (∀ i, i < vars →
      (buildCorrelationMatrix pearson test data
        (PCAlgorithm.init vars alpha samples threads)).correlation i i = 1)
    ∧ (∀ i j,
      (buildCorrelationMatrix pearson test data
        (PCAlgorithm.init vars alpha samples threads)).correlation i j =
      (buildCorrelationMatrix pearson test data
        (PCAlgorithm.init vars alpha samples threads)).correlation j i)
    ∧ (∀ i j, i < vars → j < vars → i ≠ j →
      (buildCorrelationMatrix pearson test data
        (PCAlgorithm.init vars alpha samples threads)).correlation i j =
      pearson (data.getD i []) (data.getD j []))
    ∧ (∀ r, buildGraph worker
        (buildCorrelationMatrix pearson test data
          (PCAlgorithm.init vars alpha samples threads)) = Except.ok r →
      r.correlation =
        (buildCorrelationMatrix pearson test data
          (PCAlgorithm.init vars alpha samples threads)).correlation) := by
  have hc : (buildCorrelationMatrix pearson test data
      (PCAlgorithm.init vars alpha samples threads)).correlation =
      corrFold pearson data ((data.headD []).length) vars
        (fun i j => if i = j then 1 else 0) := rfl
  have htake : ∀ i, i < vars →
      (data.getD i []).take ((data.headD []).length) = data.getD i [] := by
    intro i hi
    have hmem : data.getD i [] ∈ data := getD_mem data i (by omega)
    have hrow := hrect _ hmem
    rw [← hrow, List.take_length]
  have hsymm : ∀ i j,
      corrFold pearson data ((data.headD []).length) vars
        (fun i j => if i = j then 1 else 0) i j =
      corrFold pearson data ((data.headD []).length) vars
        (fun i j => if i = j then 1 else 0) j i := by
    apply foldCorr_symm
    intro x y
    by_cases h : x = y
    · rw [h]
    · rw [if_neg h, if_neg (fun hyx => h hyx.symm)]
  have hoff : ∀ i j, j < i → i < vars →
      corrFold pearson data ((data.headD []).length) vars
        (fun i j => if i = j then 1 else 0) i j =
      pearson (data.getD i []) (data.getD j []) := by
    intro i j hji hi
    have hmem : ((i, j) : Nat × Nat) ∈ pairsLT vars :=
      (mem_pairsLT vars (i, j)).mpr ⟨hji, hi⟩
    have hval : pearsonAt pearson data ((data.headD []).length) (i, j) =
        pearson (data.getD i []) (data.getD j []) := by
      unfold pearsonAt
      rw [htake i hi, htake j (by omega)]
    rw [corrFold]
    rw [foldCorr_mem _ _ _ i j (i, j) hmem (Or.inl ⟨rfl, rfl⟩) ?uniq]
    · exact hval
    case uniq =>
      intro p hp ht
      have hplt := (mem_pairsLT vars p).mp hp
      rcases ht with ⟨h1, h2⟩ | ⟨h1, h2⟩
      · have : p = (i, j) := by
          cases p; simp_all
        rw [this]
      · omega
  refine ⟨?_, ?_, ?_, ?_⟩
  · intro i _
    rw [hc, corrFold]
    rw [foldCorr_not _ _ _ i i ?nd]
    · exact if_pos rfl
    case nd =>
      intro p hp ht
      have hplt := (mem_pairsLT vars p).mp hp
      rcases ht with ⟨h1, h2⟩ | ⟨h1, h2⟩ <;> omega
  · intro i j
    rw [hc]
    exact hsymm i j
  · intro i j hi hj hij
    rw [hc]
    rcases Nat.lt_or_ge j i with hji | hle
    · exact hoff i j hji hi
    · have hij' : i < j := by omega
      rw [hsymm i j, hoff j i hij' hj, hpsym]
  · intro r h
    exact buildGraph_correlation worker _ r h

/-- Witness for `C7_correlation_immutable` at a concrete input. -/
theorem C7_correlation_immutable_witness :
    (buildCorrelationMatrix (fun _ _ => (1 : ℚ) / 3) (fun _ _ _ _ _ => 0)
      [[1, 2], [3, 4]] (PCAlgorithm.init 2 1 10 1)).correlation 0 1 =
    (fun (_ _ : List ℚ) => (1 : ℚ) / 3) [(1 : ℚ), 2] [(3 : ℚ), 4] := by
  have h := C7_correlation_immutable 2 10 1 1 (fun _ _ => (1 : ℚ) / 3)
    (fun _ _ _ _ _ => 0) [[1, 2], [3, 4]] (fun _ _ _ g => g)
    (by intro row hrow; fin_cases hrow <;> rfl) (by decide)
    (fun _ _ => rfl)
  exact h.2.2.1 0 1 (by decide) (by decide) (by decide)

/-! ### The level loop (claims C3, C4, C9) -/

lemma buildGraphLoop_exit_nodes
    (worker : Nat → List TestInstruction → Graph → Graph → Graph)
    (fuel level : Nat) (frozen : Graph) (w? : Option Graph)
    (out : List OutEvent) :
    buildGraphLoop worker fuel level frozen w? [] out =
      Except.ok ⟨frozen, w?, out⟩ := by
  rw [buildGraphLoop.eq_def]
  simp

lemma buildGraphLoop_exit_queue
    (worker : Nat → List TestInstruction → Graph → Graph → Graph)
    (fuel level : Nat) (frozen w : Graph) (nodes : List Nat)
    (out : List OutEvent) (hn : nodes ≠ [])
    (hq : fillQueue frozen level nodes = []) :
    buildGraphLoop worker fuel level frozen (some w) nodes out =
      Except.ok ⟨w, some w, out ++ [OutEvent.noTestsLeft level]⟩ := by
  rw [buildGraphLoop]
  simp [if_neg hn, hq]

lemma buildGraphLoop_null
    (worker : Nat → List TestInstruction → Graph → Graph → Graph)
    (fuel level : Nat) (frozen : Graph) (nodes : List Nat)
    (out : List OutEvent) (hn : nodes ≠ []) :
    buildGraphLoop worker fuel level frozen none nodes out =
      Except.error RunError.nullDeref := by
  rw [buildGraphLoop]
  by_cases hq : fillQueue frozen level nodes = [] <;>
    simp [if_neg hn, hq]

lemma buildGraphLoop_fuel_zero
    (worker : Nat → List TestInstruction → Graph → Graph → Graph)
    (level : Nat) (frozen w : Graph) (nodes : List Nat)
    (out : List OutEvent) (hn : nodes ≠ [])
    (hq : fillQueue frozen level nodes ≠ []) :
    buildGraphLoop worker 0 level frozen (some w) nodes out =
      Except.error RunError.outOfFuel := by
  rw [buildGraphLoop]
  simp only [if_neg hn, if_neg hq]

/-- One full iteration of the level loop: workers run on the queue, the
working graph they produce is promoted to the frozen graph of the next
level, under-degree nodes are removed, the level counter advances. -/
lemma buildGraphLoop_step
    (worker : Nat → List TestInstruction → Graph → Graph → Graph)
    (fuel level : Nat) (frozen w : Graph) (nodes : List Nat)
    (out : List OutEvent) (hn : nodes ≠ [])
    (hq : fillQueue frozen level nodes ≠ []) :
    buildGraphLoop worker (fuel + 1) level frozen (some w) nodes out =
      buildGraphLoop worker fuel (level + 1)
        (worker level (fillQueue frozen level nodes) frozen w)
        (some (worker level (fillQueue frozen level nodes) frozen w))
        (nodes.filter (fun v => qualB frozen level v))
        (out ++ [OutEvent.queuedPairs (fillQueue frozen level nodes).length,
                 OutEvent.testsDone level]) := by
  conv_lhs => rw [buildGraphLoop]
  simp only [if_neg hn, if_neg hq]

lemma fillQueue_ne_nil (g : Graph) (level : Nat) (nodes : List Nat)
    (h : fillQueue g level nodes ≠ []) :
    ∃ x ∈ nodes, qualB g level x = true := by
  by_contra hq
  push_neg at hq
  apply h
  rw [fillQueue, List.flatMap_eq_nil_iff]
  intro x hx
  rw [if_neg ?_]
  intro hqx
  exact hq x hx hqx

/-- The level loop reaches an exit within `fuel` full iterations whenever
`p ≤ level + fuel + 1`: a non-empty queue at level `ℓ` needs a node of
degree at least `ℓ + 1`, impossible once `ℓ` reaches `p - 1`. -/
lemma buildGraphLoop_halts (p : Nat)
    (worker : Nat → List TestInstruction → Graph → Graph → Graph)
    (hworker : ∀ level queue f g, Wellformed g p →
      Wellformed (worker level queue f g) p) :
    ∀ fuel level frozen w nodes out, Wellformed frozen p → Wellformed w p →
      (∀ x ∈ nodes, x < p) → p ≤ level + fuel + 1 →
      ∃ r, buildGraphLoop worker fuel level frozen (some w) nodes out =
        Except.ok r := by
  intro fuel
  induction fuel with
  | zero =>
    intro level frozen w nodes out hwf _ hnodes hp
    by_cases hn : nodes = []
    · subst hn
      exact ⟨_, buildGraphLoop_exit_nodes worker 0 level frozen (some w) out⟩
    · by_cases hq : fillQueue frozen level nodes = []
      · exact ⟨_, buildGraphLoop_exit_queue worker 0 level frozen w nodes out
          hn hq⟩
      · exfalso
        obtain ⟨x, hx, hqual⟩ := fillQueue_ne_nil frozen level nodes hq
        have hcnt := (qualB_true_iff frozen level x).mp hqual
        have hle := count_le_of_wellformed frozen p x hwf (hnodes x hx)
        have hxp := hnodes x hx
        omega
  | succ fuel ih =>
    intro level frozen w nodes out hwf hw hnodes hp
    by_cases hn : nodes = []
    · subst hn
      exact ⟨_, buildGraphLoop_exit_nodes worker (fuel + 1) level frozen
        (some w) out⟩
    · by_cases hq : fillQueue frozen level nodes = []
      · exact ⟨_, buildGraphLoop_exit_queue worker (fuel + 1) level frozen w
          nodes out hn hq⟩
      · rw [buildGraphLoop_step worker fuel level frozen w nodes out hn hq]
        refine ih (level + 1) _ _ _ _
          (hworker level (fillQueue frozen level nodes) frozen w hw)
          (hworker level (fillQueue frozen level nodes) frozen w hw)
          ?_ (by omega)
        intro x hx
        exact hnodes x (List.mem_filter.mp hx).1

/-- C3: for any worker behaviour preserving graph wellformedness, the level
loop of `build_graph` over `p` nodes halts within `p - 1` levels of fuel,
and (fuel aside) it exits at a state exactly when the per-level queue is
empty or `nodes_to_be_tested` is empty. -/
theorem C3_termination (p : Nat)
    (worker : Nat → List TestInstruction → Graph → Graph → Graph)
    (frozen w : Graph) (out : List OutEvent)
    (hwf : Wellformed frozen p) (hw : Wellformed w p)
    (hworker : ∀ level queue f g, Wellformed g p →
      Wellformed (worker level queue f g) p) :
    (∃ r, buildGraphLoop worker (p - 1) 1 frozen (some w) (List.range p) out =
      Except.ok r)
    ∧ (∀ level (f w' : Graph) nodes out',
        (∃ r, buildGraphLoop worker 0 level f (some w') nodes out' =
          Except.ok r)
        ↔ (nodes = [] ∨ fillQueue f level nodes = [])) := by
  constructor
  · exact buildGraphLoop_halts p worker hworker (p - 1) 1 frozen w
      (List.range p) out hwf hw (fun x hx => List.mem_range.mp hx) (by omega)
  · intro level f w' nodes out'
    constructor
    · rintro ⟨r, hr⟩
      by_cases hn : nodes = []
      · exact Or.inl hn
      · by_cases hq : fillQueue f level nodes = []
        · exact Or.inr hq
        · rw [buildGraphLoop_fuel_zero worker level f w' nodes out' hn hq]
            at hr
          exact absurd hr (by simp)
    · rintro (hn | hq)
      · subst hn
        exact ⟨_, buildGraphLoop_exit_nodes worker 0 level f (some w') out'⟩
      · by_cases hn : nodes = []
        · subst hn
          exact ⟨_, buildGraphLoop_exit_nodes worker 0 level f (some w') out'⟩
        · exact ⟨_, buildGraphLoop_exit_queue worker 0 level f w' nodes out'
            hn hq⟩

/-- Witness for `C3_termination` at a concrete input. -/
theorem C3_termination_witness :
    ∃ r, buildGraphLoop (fun _ _ _ g => g) (3 - 1) 1 (completeGraph 3)
      (some (completeGraph 3)) (List.range 3) [] = Except.ok r :=
  (C3_termination 3 (fun _ _ _ g => g) (completeGraph 3) (completeGraph 3) []
    (completeGraph_wellformed 3) (completeGraph_wellformed 3)
    (fun _ _ _ _ h => h)).1

/-- C4: the dual-graph discipline.  `build_correlation_matrix` initialises
the working graph as a copy of the (level-0-screened) frozen graph, and one
full iteration of the level loop promotes the worker-produced working graph
to be the frozen graph of level `ℓ + 1` — the frozen graph of level `ℓ + 1`
is exactly the working graph as it stood at the end of level `ℓ`. -/
theorem C4_dual_graph
    (worker : Nat → List TestInstruction → Graph → Graph → Graph)
    (fuel level : Nat) (frozen w : Graph) (nodes : List Nat)
    (out : List OutEvent) (hn : nodes ≠ [])
    (hq : fillQueue frozen level nodes ≠ []) :
    (∀ (pearson : List ℚ → List ℚ → ℚ)
        (test : Nat → (Nat → Nat → ℚ) → Nat → Nat → List Nat → ℚ)
        (data : List (List ℚ)) (s : AlgState),
      (buildCorrelationMatrix pearson test data s).workingGraph =
        some (buildCorrelationMatrix pearson test data s).graph)
    ∧ buildGraphLoop worker (fuel + 1) level frozen (some w) nodes out =
      buildGraphLoop worker fuel (level + 1)
        (worker level (fillQueue frozen level nodes) frozen w)
        (some (worker level (fillQueue frozen level nodes) frozen w))
        (nodes.filter (fun v => qualB frozen level v))
        (out ++ [OutEvent.queuedPairs (fillQueue frozen level nodes).length,
                 OutEvent.testsDone level]) := by
  constructor
  · intro pearson test data s
    rfl
  · exact buildGraphLoop_step worker fuel level frozen w nodes out hn hq

/-- Witness for `C4_dual_graph` at a concrete input. -/
theorem C4_dual_graph_witness :
    buildGraphLoop (fun _ _ _ g => g) 1 1 (completeGraph 3)
        (some (completeGraph 3)) (List.range 3) [] =
      buildGraphLoop (fun _ _ _ g => g) 0 2
        ((fun _ _ _ g => g) 1
          (fillQueue (completeGraph 3) 1 (List.range 3)) (completeGraph 3)
          (completeGraph 3))
        (some ((fun _ _ _ g => g) 1
          (fillQueue (completeGraph 3) 1 (List.range 3)) (completeGraph 3)
          (completeGraph 3)))
        ((List.range 3).filter (fun v => qualB (completeGraph 3) 1 v))
        ([] ++ [OutEvent.queuedPairs
                  (fillQueue (completeGraph 3) 1 (List.range 3)).length,
                OutEvent.testsDone 1]) :=
  (C4_dual_graph (fun _ _ _ g => g) 0 1 (completeGraph 3) (completeGraph 3)
    (List.range 3) [] (by decide) (by decide)).2

/-- C9: on a freshly constructed instance the working-graph pointer is null
(only `build_correlation_matrix` initialises it), and `build_graph` run on
the fresh instance dereferences that null pointer: calling `build_graph`
is only safe after `build_correlation_matrix`. -/
theorem C9_null_working_graph (vars : Nat) (alpha : ℚ)
    (samples threads : Nat)
    (worker : Nat → List TestInstruction → Graph → Graph → Graph)
    (hv : 1 ≤ vars) :
    (PCAlgorithm.init vars alpha samples threads).workingGraph = none
    ∧ (∀ (pearson : List ℚ → List ℚ → ℚ)
        (test : Nat → (Nat → Nat → ℚ) → Nat → Nat → List Nat → ℚ)
        (data : List (List ℚ)) (s : AlgState),
        (buildCorrelationMatrix pearson test data s).workingGraph ≠ none)
    ∧ buildGraph worker (PCAlgorithm.init vars alpha samples threads) =
        Except.error RunError.nullDeref := by
  refine ⟨rfl, ?_, ?_⟩
  · intro pearson test data s
    simp [buildCorrelationMatrix]
  · have hn : List.range vars ≠ [] := by
      rw [Ne, List.range_eq_nil]
      omega
    unfold buildGraph
    have h1 : (PCAlgorithm.init vars alpha samples threads).nrVariables =
        vars := rfl
    have h2 : (PCAlgorithm.init vars alpha samples threads).workingGraph =
        none := rfl
    have h3 : (PCAlgorithm.init vars alpha samples threads).graph =
        completeGraph vars := rfl
    rw [h1, h2, h3]
    rw [buildGraphLoop_null worker vars 1 (completeGraph vars)
      (List.range vars) [] hn]

/-- Witness for `C9_null_working_graph` at a concrete input. -/
theorem C9_null_working_graph_witness :
    buildGraph (fun _ _ _ g => g) (PCAlgorithm.init 3 1 10 2) =
      Except.error RunError.nullDeref :=
  (C9_null_working_graph 3 1 10 2 (fun _ _ _ g => g) (by decide)).2.2

/-! ### Construction (claim C5) -/

/-- C5, amended: the constructor performs no input validation whatsoever —
for every `vars`, `alpha`, `samples`, `threads` (valid or not) it returns an
instance storing exactly those parameters, with the complete graph and a
null working-graph pointer. -/
theorem C5_no_validation (vars : Nat) (alpha : ℚ) (samples threads : Nat) :
    (PCAlgorithm.init vars alpha samples threads).alpha = alpha
    ∧ (PCAlgorithm.init vars alpha samples threads).nrVariables = vars
    ∧ (PCAlgorithm.init vars alpha samples threads).nrSamples = samples
    ∧ (PCAlgorithm.init vars alpha samples threads).nrThreads = threads
    ∧ (PCAlgorithm.init vars alpha samples threads).graph = completeGraph vars
    ∧ (PCAlgorithm.init vars alpha samples threads).workingGraph = none :=
  ⟨rfl, rfl, rfl, rfl, rfl, rfl⟩

/-- C5, counterexample to the claim as stated: `α = 2 ∉ (0,1)` and
`n = 1 ≤ 3` are both invalid inputs, yet construction succeeds — the
constructor stores the invalid parameters and the resulting instance is
usable (`build_correlation_matrix` runs on it and initialises the working
graph); nothing is detected or reported at construction. -/
theorem C5_counterexample :
    (2 : ℚ) ∉ Set.Ioo (0 : ℚ) 1
    ∧ (1 : Nat) ≤ 3
    ∧ (PCAlgorithm.init 2 2 1 1).alpha = 2
    ∧ (PCAlgorithm.init 2 2 1 1).nrSamples = 1
    ∧ (buildCorrelationMatrix (fun _ _ => 0) (fun _ _ _ _ _ => 0)
        [[1], [2]] (PCAlgorithm.init 2 2 1 1)).workingGraph ≠ none := by
  refine ⟨?_, by omega, rfl, rfl, ?_⟩
  · simp [Set.mem_Ioo]
  · simp [buildCorrelationMatrix]

/-! ### Queue population precedes worker creation (claim C6) -/

/-- In the concatenation of a block of enqueue events and a block of spawn
events, every enqueue position precedes every spawn position. -/
lemma enqueue_precedes_spawn (A B : List LevelEvent) (i j : Nat)
    (t : TestInstruction) (k : Nat)
    (hA : ∀ e ∈ A, ∃ u, e = LevelEvent.enqueue u)
    (hB : ∀ e ∈ B, ∃ m, e = LevelEvent.spawnWorker m)
    (hi : i < (A ++ B).length) (hj : j < (A ++ B).length)
    (hei : (A ++ B).get ⟨i, hi⟩ = LevelEvent.enqueue t)
    (hej : (A ++ B).get ⟨j, hj⟩ = LevelEvent.spawnWorker k) :
    i < j := by
  rw [List.get_eq_getElem] at hei hej
  have hiA : i < A.length := by
    by_contra hgt
    push_neg at hgt
    rw [List.getElem_append_right hgt] at hei
    obtain ⟨m, hm⟩ := hB _ (List.getElem_mem _)
    rw [hm] at hei
    exact absurd hei (by simp)
  have hjA : A.length ≤ j := by
    by_contra hgt
    push_neg at hgt
    rw [List.getElem_append_left hgt] at hej
    obtain ⟨u, hu⟩ := hA _ (List.getElem_mem _)
    rw [hu] at hej
    exact absurd hej (by simp)
  omega

/-- C6: within a level, every enqueue precedes every worker-thread creation
in the level body's event trace — the Engine fully populates the work queue
before spawning the first worker. -/
theorem C6_enqueues_before_spawns (g : Graph) (level : Nat)
    (nodes : List Nat) (nrThreads : Nat) (i j : Nat) (t : TestInstruction)
    (k : Nat)
    (hi : i < (levelEvents g level nodes nrThreads).length)
    (hj : j < (levelEvents g level nodes nrThreads).length)
    (hei : (levelEvents g level nodes nrThreads).get ⟨i, hi⟩ =
      LevelEvent.enqueue t)
    (hej : (levelEvents g level nodes nrThreads).get ⟨j, hj⟩ =
      LevelEvent.spawnWorker k) :
    i < j := by
  have hi2 : i < ((fillQueue g level nodes).map LevelEvent.enqueue ++
      (if fillQueue g level nodes = [] then []
       else (List.range nrThreads).map LevelEvent.spawnWorker)).length := hi
  have hj2 : j < ((fillQueue g level nodes).map LevelEvent.enqueue ++
      (if fillQueue g level nodes = [] then []
       else (List.range nrThreads).map LevelEvent.spawnWorker)).length := hj
  refine enqueue_precedes_spawn
    ((fillQueue g level nodes).map LevelEvent.enqueue)
    (if fillQueue g level nodes = [] then []
     else (List.range nrThreads).map LevelEvent.spawnWorker)
    i j t k ?_ ?_ hi2 hj2 hei hej
  · intro e he
    obtain ⟨u, _, hu⟩ := List.mem_map.mp he
    exact ⟨u, hu.symm⟩
  · intro e he
    by_cases hq : fillQueue g level nodes = []
    · rw [if_pos hq] at he
      exact absurd he (List.not_mem_nil e)
    · rw [if_neg hq] at he
      obtain ⟨m, _, hm⟩ := List.mem_map.mp he
      exact ⟨m, hm.symm⟩

/-- Witness for `C6_enqueues_before_spawns` at a concrete input. -/
theorem C6_enqueues_before_spawns_witness :
    (levelEvents (completeGraph 3) 1 (List.range 3) 1).get ⟨0, by decide⟩ =
      LevelEvent.enqueue (TestInstruction.mk 1 0)
    ∧ (levelEvents (completeGraph 3) 1 (List.range 3) 1).get ⟨3, by decide⟩ =
      LevelEvent.spawnWorker 0
    ∧ (0 : Nat) < 3 :=
  ⟨by decide, by decide,
    C6_enqueues_before_spawns (completeGraph 3) 1 (List.range 3) 1 0 3
      (TestInstruction.mk 1 0) 0 (by decide) (by decide) (by decide)
      (by decide)⟩

/-! ### Stdout output of the engine (claim C8) -/

/-- C8, amended: the engine does write to stdout.
`build_correlation_matrix` unconditionally appends its deleted-edges line to
the transcript, and the level loop prints a no-tests-left line on the
queue-empty exit. -/
theorem C8_stdout_output :
    (∀ (pearson : List ℚ → List ℚ → ℚ)
        (test : Nat → (Nat → Nat → ℚ) → Nat → Nat → List Nat → ℚ)
        (data : List (List ℚ)) (s : AlgState),
      (buildCorrelationMatrix pearson test data s).output ≠ s.output)
    ∧ (∀ (worker : Nat → List TestInstruction → Graph → Graph → Graph)
        (fuel level : Nat) (frozen w : Graph) (nodes : List Nat)
        (out : List OutEvent), nodes ≠ [] →
        fillQueue frozen level nodes = [] →
        buildGraphLoop worker fuel level frozen (some w) nodes out =
          Except.ok ⟨w, some w, out ++ [OutEvent.noTestsLeft level]⟩) := by
  constructor
  · intro pearson test data s h
    have hlen := congrArg List.length h
    simp [buildCorrelationMatrix] at hlen
  · intro worker fuel level frozen w nodes out hn hq
    exact buildGraphLoop_exit_queue worker fuel level frozen w nodes out hn hq

/-- Witness for `C8_stdout_output` at a concrete input. -/
theorem C8_stdout_output_witness :
    buildGraphLoop (fun _ _ _ g => g) 2 1 (completeGraph 2)
        (some (completeGraph 2)) (List.range 2) [] =
      Except.ok ⟨completeGraph 2, some (completeGraph 2),
        [] ++ [OutEvent.noTestsLeft 1]⟩ :=
  C8_stdout_output.2 (fun _ _ _ g => g) 2 1 (completeGraph 2)
    (completeGraph 2) (List.range 2) [] (by decide) (by decide)

/-- C8, counterexample to the claim as stated: on a concrete input,
`build_correlation_matrix` emits stdout output (the `Deleted edges:` line)
— the transcript is not empty after the call although it was empty at
construction. -/
theorem C8_counterexample :
    (PCAlgorithm.init 2 1 10 1).output = []
    ∧ (buildCorrelationMatrix (fun _ _ => 0) (fun _ _ _ _ _ => 0)
        [[1, 2], [3, 4]] (PCAlgorithm.init 2 1 10 1)).output ≠ [] := by
  refine ⟨rfl, ?_⟩
  simp [buildCorrelationMatrix]

/-! ### Memory reads of the correlation pass (claim C10) -/

lemma foldCorr_val_congr (val val2 : Nat × Nat → ℚ) (ps : List (Nat × Nat))
    (c : Nat → Nat → ℚ) (h : ∀ p ∈ ps, val p = val2 p) :
    ps.foldl (fun c p => corrUpdate c p (val p)) c =
    ps.foldl (fun c p => corrUpdate c p (val2 p)) c := by
  induction ps generalizing c with
  | nil => rfl
  | cons q ps ih =>
    rw [List.foldl_cons, List.foldl_cons, h q (List.mem_cons_self q ps)]
    exact ih _ (fun p hp => h p (List.mem_cons_of_mem q hp))

lemma mem_corrReads (data : List (List ℚ)) (vars : Nat) (h2 : 2 ≤ vars)
    (i k : Nat) :
    (i, k) ∈ corrReads data vars ↔
      i < vars ∧ k < (data.headD []).length := by
  simp only [corrReads]
  constructor
  · intro h
    obtain ⟨p, hp, hcase⟩ := List.mem_flatMap.mp h
    have hb := (mem_pairsLT vars p).mp hp
    rcases List.mem_append.mp hcase with hm | hm
    · obtain ⟨k2, hk2, heq⟩ := List.mem_map.mp hm
      rw [Prod.mk.injEq] at heq
      obtain ⟨h1, hk⟩ := heq
      rw [List.mem_range] at hk2
      omega
    · obtain ⟨k2, hk2, heq⟩ := List.mem_map.mp hm
      rw [Prod.mk.injEq] at heq
      obtain ⟨h1, hk⟩ := heq
      rw [List.mem_range] at hk2
      omega
  · rintro ⟨hi, hk⟩
    rw [List.mem_flatMap]
    by_cases hi0 : i = 0
    · refine ⟨(1, 0), (mem_pairsLT vars (1, 0)).mpr ⟨by omega, by omega⟩, ?_⟩
      refine List.mem_append.mpr (Or.inr ?_)
      exact List.mem_map.mpr ⟨k, List.mem_range.mpr hk, by rw [hi0]⟩
    · refine ⟨(i, 0), (mem_pairsLT vars (i, 0)).mpr ⟨by omega, hi⟩, ?_⟩
      refine List.mem_append.mpr (Or.inl ?_)
      exact List.mem_map.mpr ⟨k, List.mem_range.mpr hk, rfl⟩

/-- C10: `build_correlation_matrix` takes `n = data[0].size()`; its GSL
reads touch exactly the first `n` cells of each of the `p` rows, all reads
are in bounds precisely when every row has length at least `n`, and any
entries beyond position `n` in longer rows do not influence the computed
correlation matrix. -/
theorem C10_read_bounds (data : List (List ℚ)) (vars : Nat)
    (hlen : data.length = vars) (h2 : 2 ≤ vars) :
    (∀ i k, (i, k) ∈ corrReads data vars ↔
      i < vars ∧ k < (data.headD []).length)
    ∧ ((∀ q ∈ corrReads data vars, q.2 < (data.getD q.1 []).length) ↔
        ∀ row ∈ data, (data.headD []).length ≤ row.length)
    ∧ (∀ (pearson : List ℚ → List ℚ → ℚ)
        (test : Nat → (Nat → Nat → ℚ) → Nat → Nat → List Nat → ℚ)
        (alpha : ℚ) (samples threads : Nat),
        (buildCorrelationMatrix pearson test data
          (PCAlgorithm.init vars alpha samples threads)).correlation =
        (buildCorrelationMatrix pearson test
          (data.map (fun r => r.take ((data.headD []).length)))
          (PCAlgorithm.init vars alpha samples threads)).correlation) := by
  refine ⟨mem_corrReads data vars h2, ?_, ?_⟩
  · constructor
    · intro hreads row hrow
      obtain ⟨idx, hidx, heq⟩ := List.mem_iff_getElem.mp hrow
      by_cases hn0 : (data.headD []).length = 0
      · omega
      · have hread : (idx, (data.headD []).length - 1) ∈ corrReads data vars :=
          (mem_corrReads data vars h2 idx _).mpr ⟨by omega, by omega⟩
        have hb := hreads _ hread
        have hgd : data.getD idx [] = row := by
          rw [List.getD_eq_getElem data [] hidx, heq]
        rw [hgd] at hb
        omega
    · intro hrows q hq
      have hq2 : (q.1, q.2) ∈ corrReads data vars := by
        rw [Prod.mk.eta]
        exact hq
      obtain ⟨h1, hk⟩ := (mem_corrReads data vars h2 q.1 q.2).mp hq2
      have hmem : data.getD q.1 [] ∈ data := getD_mem data q.1 (by omega)
      have := hrows _ hmem
      omega
  · intro pearson test alpha samples threads
    have hne : data ≠ [] := by
      intro h
      rw [h] at hlen
      simp at hlen
      omega
    have hn2 : (((data.map (fun r =>
        r.take ((data.headD []).length))).headD []).length) =
        (data.headD []).length := by
      cases data with
      | nil => exact absurd rfl hne
      | cons r rest =>
        simp [List.length_take]
    have hc1 : (buildCorrelationMatrix pearson test data
        (PCAlgorithm.init vars alpha samples threads)).correlation =
        corrFold pearson data ((data.headD []).length) vars
          (fun i j => if i = j then 1 else 0) := rfl
    have hc2 : (buildCorrelationMatrix pearson test
        (data.map (fun r => r.take ((data.headD []).length)))
        (PCAlgorithm.init vars alpha samples threads)).correlation =
        corrFold pearson (data.map (fun r => r.take ((data.headD []).length)))
          (((data.map (fun r => r.take ((data.headD []).length))).headD
            []).length) vars
          (fun i j => if i = j then 1 else 0) := rfl
    rw [hc1, hc2, hn2]
    unfold corrFold
    refine foldCorr_val_congr _ _ _ _ ?_
    intro p hp
    have hb := (mem_pairsLT vars p).mp hp
    unfold pearsonAt
    have hrow : ∀ m, m < vars →
        (data.map (fun r => r.take ((data.headD []).length))).getD m [] =
        (data.getD m []).take ((data.headD []).length) := by
      intro m hm
      rw [List.getD_eq_getElem _ [] (by simpa [hlen] using hm)]
      rw [List.getElem_map]
      rw [List.getD_eq_getElem data [] (by omega)]
    rw [hrow p.1 (by omega), hrow p.2 (by omega)]
    rw [List.take_take, List.take_take]
    simp

/-- Witness for `C10_read_bounds` at a concrete input. -/
theorem C10_read_bounds_witness :
    ((0, 1) ∈ corrReads [[1, 2], [3, 4]] 2 ↔
      0 < 2 ∧ 1 < (([[1, 2], [3, 4]] : List (List ℚ)).headD []).length) :=
  (C10_read_bounds [[1, 2], [3, 4]] 2 (by decide) (by decide)).1 0 1

end LockFreePC
